import Mathlib

/-!
Verification development for the gene-map DNA-sequence engine.

Text is embedded as `List Char` (the JS string functions used by the source
are reimplemented character-by-character); byte buffers as `List Nat`.
Fields of the TypeScript records that are nondeterministic environment
values (uuid ids, `Date` timestamps) are elided from the embedded records:
no property below observes them.
-/

namespace GeneMap

/-- Text is modelled as a list of characters. -/
abbrev Str := List Char

/-- Literal helper: a Lean string literal as a `Str`. -/
def str (s : String) : Str := s.toList

/-- The whitespace characters recognised by the JS `String.prototype.trim`
and by the `\s` regex class, restricted to the ASCII range (the source
never feeds non-ASCII whitespace to these functions). -/
def isJsWs (c : Char) : Bool :=
  c = ' ' || c = '\t' || c = '\n' || c = '\r' || c = '\x0b' || c = '\x0c'

/-- JS `String.prototype.trimStart`. -/
def jsTrimStart (l : Str) : Str := l.dropWhile isJsWs

/-- JS `String.prototype.trimEnd`. -/
def jsTrimEnd (l : Str) : Str := (l.reverse.dropWhile isJsWs).reverse

/-- JS `String.prototype.trim`. -/
def jsTrim (l : Str) : Str := jsTrimStart (jsTrimEnd l)

/-- JS `s.split(sep)` for a one-character separator `sep`
(`"".split(sep)` is `[""]`, and separators at the ends produce empty
pieces, exactly as in JS). -/
def jsSplitChar (sep : Char) : Str → List Str
  | [] => [[]]
  | c :: cs =>
    if c = sep then [] :: jsSplitChar sep cs
    else
      match jsSplitChar sep cs with
      | [] => [[c]]
      | t :: ts => (c :: t) :: ts

/-- JS `s.substring(a, b)` on in-range arguments: arguments are clamped to
the string bounds and swapped when `a > b`. -/
def jsSubstring (l : Str) (a b : Nat) : Str :=
  if a ≤ b then (l.take b).drop a else (l.take a).drop b

/-- Worker for `splitWs`; `acc` is the current token reversed, the flag says
whether we are inside a whitespace run (token boundary already emitted). -/
def splitWsGo : Str → Str → Bool → List Str
  | [], acc, flag => if flag then [[]] else [acc.reverse]
  | c :: cs, acc, flag =>
    if isJsWs c then
      if flag then splitWsGo cs acc true
      else acc.reverse :: splitWsGo cs [] true
    else splitWsGo cs (c :: (if flag then [] else acc)) false

/-- JS `s.split(/\s+/)`: pieces separated by maximal nonempty whitespace
runs; leading/trailing whitespace yields empty edge pieces. -/
def splitWs (l : Str) : List Str := splitWsGo l [] false

/-- First index at which `pat` occurs as a contiguous sublist of `l`
(JS `s.indexOf(pat)`, with `none` for `-1`). -/
def idxSub : Str → Str → Option Nat
  | [], pat => if pat = [] then some 0 else none
  | c :: cs, pat =>
    if pat.isPrefixOf (c :: cs) then some 0
    else (idxSub cs pat).map (· + 1)

/-- JS `s.includes(pat)`. -/
def containsSub (l pat : Str) : Bool := (idxSub l pat).isSome

/-- ASCII decimal digit (`\d`). -/
def isDigit (c : Char) : Bool := '0' ≤ c && c ≤ '9'

/-- Regex word character (`\w`): ASCII letter, digit or underscore. -/
def isWordChar (c : Char) : Bool :=
  ('a' ≤ c && c ≤ 'z') || ('A' ≤ c && c ≤ 'Z') || isDigit c || c = '_'

/-- `parseInt` on an all-digit capture. -/
def parseDigits (l : Str) : Nat :=
  l.foldl (fun acc c => 10 * acc + (c.toNat - '0'.toNat)) 0

/-- Run the anchored matcher `f` at every suffix of `l`, left to right, and
return the first hit: the unanchored regex search discipline. -/
def searchO {α : Type} (f : Str → Option α) : Str → Option α
  | [] => f []
  | c :: cs =>
    match f (c :: cs) with
    | some r => some r
    | none => searchO f cs

/-- Anchored matcher for `(\d+)\.\.(\d+)`: a maximal nonempty digit run,
the literal `..`, a second nonempty digit run. (`\d+` never backtracks
usefully here because `.` is not a digit.) -/
def matchRangeAt (l : Str) : Option (Nat × Nat) :=
  let d1 := l.takeWhile isDigit
  let r1 := l.dropWhile isDigit
  if d1 = [] then none
  else if (str "..").isPrefixOf r1 then
    let r2 := r1.drop 2
    let d2 := r2.takeWhile isDigit
    if d2 = [] then none else some (parseDigits d1, parseDigits d2)
  else none

/-- Unanchored search for `/(\d+)\.\.(\d+)/`, as used by the GenBank
location parser. -/
def matchRangeLoc (l : Str) : Option (Nat × Nat) := searchO matchRangeAt l

/-- Anchored matcher for `complement\((\d+)\.\.(\d+)\)`. -/
def matchComplementAt (l : Str) : Option (Nat × Nat) :=
  if (str "complement(").isPrefixOf l then
    let r := l.drop 11
    match matchRangeAt r with
    | some (a, b) =>
      let rest := ((r.dropWhile isDigit).drop 2).dropWhile isDigit
      if rest.head? = some ')' then some (a, b) else none
    | none => none
  else none

/-- Unanchored search for `/complement\((\d+)\.\.(\d+)\)/`. -/
def matchComplementLoc (l : Str) : Option (Nat × Nat) := searchO matchComplementAt l

/-- Test for `/^\s+\w+/`: the line starts with whitespace and its first
non-whitespace character is a word character. -/
def matchWsWord (l : Str) : Bool :=
  match l with
  | [] => false
  | c :: _ =>
    isJsWs c &&
      match l.dropWhile isJsWs with
      | [] => false
      | d :: _ => isWordChar d

/-- Test for `/^\s+\//`. -/
def matchWsSlash (l : Str) : Bool :=
  match l with
  | [] => false
  | c :: _ => isJsWs c && (l.dropWhile isJsWs).head? = some '/'

/-- Anchored-to-the-line matcher for `/^\s+\/(\w+)=(.+)$/`: leading
whitespace, a slash, a nonempty word-character capture, `=`, a nonempty
remainder (the input lines contain no newline, so `.+$` is the rest of the
line). -/
def qualifierMatch (l : Str) : Option (Str × Str) :=
  match l with
  | [] => none
  | c :: _ =>
    if isJsWs c then
      let r := l.dropWhile isJsWs
      if r.head? = some '/' then
        let r1 := r.drop 1
        let w := r1.takeWhile isWordChar
        let r2 := r1.dropWhile isWordChar
        if w ≠ [] ∧ r2.head? = some '=' ∧ r2.drop 1 ≠ [] then
          some (w, r2.drop 1)
        else none
      else none
    else none

/-- Fixed-width chunking worker: `acc` is the current chunk reversed, `k`
counts how many characters the current chunk still takes. -/
def chunksGo : Str → Str → Nat → List Str
  | [], acc, _ => if acc = [] then [] else [acc.reverse]
  | c :: cs, acc, 0 => acc.reverse :: chunksGo cs [c] 69
  | c :: cs, acc, k + 1 => chunksGo cs (c :: acc) k

/-- Split a string into consecutive 70-character chunks (the FASTA export
line width); the last chunk may be shorter, the empty string has no
chunks. -/
def chunks70 (l : Str) : List Str := chunksGo l [] 70

/-! ## Data model (`types.ts`) -/

/-- Strand direction of a feature or primer. -/
inductive Direction where
  | forward
  | reverse
deriving DecidableEq, Repr

/-- `SequenceFeature` from `types.ts`. `end` is a Lean keyword, so the field
is named `endPos`; the uuid `id` field is elided. `color` is optional at
runtime (the GenBank parser can produce `undefined` through its cast). -/
structure SequenceFeature where
  name : Str
  type : Str
  start : Nat
  endPos : Nat
  direction : Direction
  color : Option Str
  notes : Option Str
deriving DecidableEq, Repr

/-- `RestrictionSite` from `types.ts` (uuid `id` elided, `end` renamed). -/
structure RestrictionSite where
  name : Str
  sequence : Option Str
  cutSite : Option Nat
  start : Nat
  endPos : Option Nat
deriving DecidableEq, Repr

/-- `DNASequence` from `types.ts`. The uuid `id`, the `primers` array and
the `Date` timestamps are elided: no embedded operation or property reads
them (the parsers always create `primers` empty). -/
structure DNASequence where
  name : Str
  sequence : Str
  length : Nat
  circular : Bool
  features : List SequenceFeature
  restrictionSites : List RestrictionSite
  organism : Option Str
  description : Option Str
  category : Option Str
  /-- Not declared in the `DNASequence` interface, but `parseGenBank`
  attaches it at runtime (`accession: accession || undefined`). -/
  accession : Option Str
deriving DecidableEq, Repr

/-- A digest fragment: the anonymous record type returned by
`simulateDigest`. -/
structure Fragment where
  sequence : Str
  start : Nat
  endPos : Nat
  features : List SequenceFeature
deriving DecidableEq, Repr

/-- The anonymous `{sequence, features}` record type consumed by
`simulateLigation`. -/
structure LigFragment where
  sequence : Str
  features : List SequenceFeature
deriving DecidableEq, Repr

/-- An entry of the `commonRestrictionEnzymes` table: enzyme name,
recognition sequence and cut-site offset. -/
structure Enzyme where
  name : Str
  sequence : Str
  cutSite : Nat
deriving DecidableEq, Repr

/-! ## Exact-rational model of JS numbers

`calculateGCContent` divides by the sequence length without a guard, so the
JS `0/0 = NaN` case is reachable.  The values flowing through it are exact
small rationals, so IEEE rounding never changes them; what matters is the
special-value propagation, modelled here exactly: division by zero yields
`NaN` or a signed infinity, and `NaN` absorbs every operation. -/
inductive JSNum where
  | num (q : ℚ)
  | nan
  | posInf
  | negInf
deriving DecidableEq, Repr

/-- IEEE division on the exact-rational model. -/
def JSNum.div : JSNum → JSNum → JSNum
  | .num a, .num b =>
    if b = 0 then (if a = 0 then .nan else if 0 < a then .posInf else .negInf)
    else .num (a / b)
  | .nan, _ => .nan
  | _, .nan => .nan
  | .num a, .posInf => if a = 0 then .num 0 else .num 0
  | .num _, .negInf => .num 0
  | .posInf, .num b => if 0 ≤ b then .posInf else .negInf
  | .negInf, .num b => if 0 ≤ b then .negInf else .posInf
  | _, _ => .nan

/-- IEEE multiplication on the exact-rational model. -/
def JSNum.mul : JSNum → JSNum → JSNum
  | .num a, .num b => .num (a * b)
  | .nan, _ => .nan
  | _, .nan => .nan
  | .posInf, .num b => if b = 0 then .nan else if 0 < b then .posInf else .negInf
  | .negInf, .num b => if b = 0 then .nan else if 0 < b then .negInf else .posInf
  | .num a, .posInf => if a = 0 then .nan else if 0 < a then .posInf else .negInf
  | .num a, .negInf => if a = 0 then .nan else if 0 < a then .negInf else .posInf
  | .posInf, .posInf => .posInf
  | .negInf, .negInf => .posInf
  | .posInf, .negInf => .negInf
  | .negInf, .posInf => .negInf

/-! ## Sequence utilities (`utils.ts`) -/

/-- The `complementMap` lookup of `getComplementarySequence`; unmapped
characters fall through unchanged (`complementMap[base] || base`). -/
def complementChar (c : Char) : Char :=
  match c with
  | 'A' => 'T' | 'T' => 'A' | 'G' => 'C' | 'C' => 'G'
  | 'a' => 't' | 't' => 'a' | 'g' => 'c' | 'c' => 'g'
  | 'N' => 'N' | 'n' => 'n'
  | 'R' => 'Y' | 'Y' => 'R' | 'r' => 'y' | 'y' => 'r'
  | 'M' => 'K' | 'K' => 'M' | 'm' => 'k' | 'k' => 'm'
  | 'S' => 'S' | 's' => 's'
  | 'W' => 'W' | 'w' => 'w'
  | 'H' => 'D' | 'D' => 'H' | 'h' => 'd' | 'd' => 'h'
  | 'B' => 'V' | 'V' => 'B' | 'b' => 'v' | 'v' => 'b'
  | other => other

/-- `getComplementarySequence`. -/
def getComplementarySequence (sequence : Str) : Str := sequence.map complementChar

/-- `getReverseSequence`. -/
def getReverseSequence (sequence : Str) : Str := sequence.reverse

/-- `getReverseComplementSequence`. -/
def getReverseComplementSequence (sequence : Str) : Str :=
  getReverseSequence (getComplementarySequence sequence)

/-- `calculateGCContent`: `(gcCount / sequence.length) * 100` with the
division unguarded, on the JS-number model. -/
def calculateGCContent (sequence : Str) : JSNum :=
  let gcCount := (sequence.filter (fun c => c = 'G' || c = 'C' || c = 'g' || c = 'c')).length
  JSNum.mul (JSNum.div (.num gcCount) (.num sequence.length)) (.num 100)

/-- ASCII upper-casing, the effect of JS `toUpperCase` on the ASCII
alphabet the source feeds it. -/
def upper (l : Str) : Str := l.map Char.toUpper

/-- Smallest index `j ≥ i` at which `p` occurs in `t`. -/
def firstOccFrom (t p : Str) (i : Nat) : Option Nat :=
  (List.range (t.length + 1)).find? (fun j => decide (i ≤ j) && p.isPrefixOf (t.drop j))

/-- Worker for `regexScan` with explicit fuel (each step advances the start
index by at least one, so `t.length + 1` steps always suffice). -/
def scanGo (t p : Str) : Nat → Nat → List Nat
  | 0, _ => []
  | fuel + 1, i =>
    match firstOccFrom t p i with
    | none => []
    | some j => j :: scanGo t p fuel (j + p.length)

/-- Match offsets produced by the `regex.exec` loop of
`findRestrictionSites` with a `g`-flagged literal pattern: leftmost
occurrences, each search resuming at `lastIndex = match.index +
pattern.length` (so overlapping occurrences are skipped). The recognition
patterns are nonempty literals; on an empty pattern the JS loop would not
terminate, so it is guarded out. -/
def regexScan (t p : Str) : List Nat :=
  if p = [] then [] else scanGo t p (t.length + 1) 0

/-- `findRestrictionSites`: case-insensitive literal scan, one
`RestrictionSite` per match, grouped per enzyme in table order. -/
def findRestrictionSites (sequence : Str) (sites : List Enzyme) : List RestrictionSite :=
  sites.flatMap (fun site =>
    (regexScan (upper sequence) (upper site.sequence)).map (fun idx =>
      { name := site.name
        sequence := some site.sequence
        cutSite := some site.cutSite
        start := idx + 1
        endPos := some (idx + site.sequence.length) }))

/-- JS truthiness of `site.cutSite`: `undefined` and `0` are falsy; the
loop of `simulateDigest` skips such sites. -/
def effectiveCut (s : RestrictionSite) : Option Nat :=
  match s.cutSite with
  | some c => if c = 0 then none else some c
  | none => none

/-- The cut position `site.start + site.cutSite - 1` of a site (meaningful
when `effectiveCut` is `some`). -/
def cutPos (s : RestrictionSite) : Nat := s.start + s.cutSite.getD 0 - 1

/-- Stable insertion keeping an earlier element before equal keys. -/
def insertByStart (s : RestrictionSite) : List RestrictionSite → List RestrictionSite
  | [] => [s]
  | t :: ts => if s.start ≤ t.start then s :: t :: ts else t :: insertByStart s ts

/-- The JS `sort((a, b) => a.start - b.start)`: a stable ascending sort by
`start`. -/
def sortByStart (l : List RestrictionSite) : List RestrictionSite :=
  l.foldr insertByStart []

/-- The `relevantSites` list of `simulateDigest`: the sequence's sites
filtered to the requested enzyme names and stably sorted by `start`. -/
def digestSites (dna : DNASequence) (enzymes : List Str) : List RestrictionSite :=
  sortByStart (dna.restrictionSites.filter (fun s => enzymes.contains s.name))

/-- The fragment-emission loop of `simulateDigest`: walks the sites with
the running `prevEnd` cursor, emitting a fragment whenever the cut position
advances past it; returns the fragments and the final `prevEnd`. -/
def digestLoop (dna : DNASequence) : List RestrictionSite → Nat → List Fragment × Nat
  | [], prevEnd => ([], prevEnd)
  | site :: rest, prevEnd =>
    match effectiveCut site with
    | none => digestLoop dna rest prevEnd
    | some c =>
      let cutPosition := site.start + c - 1
      if prevEnd < cutPosition then
        let fragmentStart := prevEnd + 1
        let fragmentEnd := cutPosition
        let fragmentSeq := jsSubstring dna.sequence (fragmentStart - 1) fragmentEnd
        let fragmentFeatures := dna.features.filter (fun f =>
          (fragmentStart ≤ f.start ∧ f.start ≤ fragmentEnd) ∨
          (fragmentStart ≤ f.endPos ∧ f.endPos ≤ fragmentEnd) ∨
          (f.start ≤ fragmentStart ∧ fragmentEnd ≤ f.endPos))
        let (frags, finalPrev) := digestLoop dna rest cutPosition
        (⟨fragmentSeq, fragmentStart, fragmentEnd, fragmentFeatures⟩ :: frags, finalPrev)
      else digestLoop dna rest cutPosition

/-- `simulateDigest`. With no matching site the whole molecule is one
fragment. Otherwise the loop emits the internal fragments; then, for a
circular molecule whose first site has a truthy `cutSite`, a wrap fragment
`substring(prevEnd) + substring(0, first cut position)` is appended (its
feature filter uses `start + cutSite` without the `-1`, as in the source);
for a linear molecule a trailing fragment is appended only when
`prevEnd < length`. -/
def simulateDigest (dna : DNASequence) (enzymes : List Str) : List Fragment :=
  match digestSites dna enzymes with
  | [] => [⟨dna.sequence, 1, dna.length, dna.features⟩]
  | s0 :: rest =>
    let (fragments, prevEnd) := digestLoop dna (s0 :: rest) 0
    match (if dna.circular then effectiveCut s0 else none) with
    | some c0 =>
      fragments ++
        [⟨dna.sequence.drop prevEnd ++ dna.sequence.take (s0.start + c0 - 1),
          prevEnd + 1,
          dna.length + s0.start + c0 - 1,
          dna.features.filter (fun f => prevEnd < f.start ∨ f.endPos < s0.start + c0)⟩]
    | none =>
      if prevEnd < dna.length then
        fragments ++
          [⟨dna.sequence.drop prevEnd, prevEnd + 1, dna.length,
            dna.features.filter (fun f => prevEnd < f.start)⟩]
      else fragments

/-- `simulateLigation`: concatenates the fragment sequences in order,
shifting each fragment's features by the running offset; the product has
no restriction sites and the caller's circularity flag. (Feature ids,
freshly generated in the source, are elided.) -/
def simulateLigation (fragments : List LigFragment) (circular : Bool) : DNASequence :=
  let out := fragments.foldl
    (fun (acc : Str × List SequenceFeature × Nat) fragment =>
      let (cseq, cfeat, offset) := acc
      (cseq ++ fragment.sequence,
       cfeat ++ fragment.features.map (fun f =>
         { f with start := f.start + offset, endPos := f.endPos + offset }),
       offset + fragment.sequence.length))
    ([], [], 0)
  { name := str "Ligated Construct"
    sequence := out.1
    length := out.1.length
    circular := circular
    features := out.2.1
    restrictionSites := []
    organism := none
    description := none
    category := none
    accession := none }

/-- JS `Array.prototype.join(sep)` for a one-character separator. -/
def joinSep (sep : Char) : List Str → Str
  | [] => []
  | [t] => t
  | t :: ts => t ++ sep :: joinSep sep ts

/-! ## FASTA / GenBank codec (`sequence.ts` utilities) -/

/-- The `commonRestrictionEnzymes` table. -/
def commonRestrictionEnzymes : List Enzyme :=
  [⟨str "EcoRI", str "GAATTC", 1⟩,
   ⟨str "BamHI", str "GGATCC", 1⟩,
   ⟨str "HindIII", str "AAGCTT", 1⟩,
   ⟨str "XbaI", str "TCTAGA", 1⟩,
   ⟨str "PstI", str "CTGCAG", 5⟩,
   ⟨str "SalI", str "GTCGAC", 1⟩,
   ⟨str "SmaI", str "CCCGGG", 3⟩,
   ⟨str "KpnI", str "GGTACC", 5⟩,
   ⟨str "SacI", str "GAGCTC", 5⟩,
   ⟨str "XhoI", str "CTCGAG", 1⟩]

/-- An entry of the `featureTypes` colour table. -/
structure FeatureType where
  type : Str
  color : Str
deriving DecidableEq, Repr

/-- The `featureTypes` table. -/
def featureTypes : List FeatureType :=
  [⟨str "promoter", str "#FF9800"⟩,
   ⟨str "gene", str "#4CAF50"⟩,
   ⟨str "terminator", str "#F44336"⟩,
   ⟨str "ori", str "#2196F3"⟩,
   ⟨str "CDS", str "#9C27B0"⟩,
   ⟨str "misc_feature", str "#607D8B"⟩]

/-- `parseFasta`: first line `>name description…` (when it starts with
`>`), remaining lines trimmed and concatenated into the sequence; name
defaults to `"Unnamed Sequence"`, empty description becomes `undefined`,
the result is linear and its restriction sites are recomputed against the
default enzyme panel. -/
def parseFasta (fastaContent : Str) : DNASequence :=
  let lines := jsSplitChar '\n' (jsTrim fastaContent)
  let firstLine := lines.headD []
  let (name, description) :=
    if firstLine.head? = some '>' then
      let headerLine := firstLine.drop 1
      let headerParts := jsSplitChar ' ' headerLine
      (headerParts.headD [], joinSep ' ' (headerParts.drop 1))
    else ([], [])
  let sequence := ((lines.drop 1).map jsTrim).flatten
  { name := if name = [] then str "Unnamed Sequence" else name
    sequence := sequence
    features := []
    restrictionSites := findRestrictionSites sequence commonRestrictionEnzymes
    circular := false
    length := sequence.length
    description := if description = [] then none else some description
    organism := none
    category := none
    accession := none }

/-- `exportToFasta`: `>name[ description]` then the sequence wrapped at 70
characters per line, every line newline-terminated. -/
def exportToFasta (sequence : DNASequence) : Str :=
  let header :=
    '>' :: sequence.name ++
      (match sequence.description with
       | some d => if d = [] then [] else ' ' :: d
       | none => [])
  header ++ '\n' :: ((chunks70 sequence.sequence).map (· ++ ['\n'])).flatten

/-- The in-flight feature record of the GenBank parser
(`Partial<SequenceFeature>` as initialised by the feature-line branch). -/
structure GBPartialFeature where
  type : Str
  start : Nat
  endPos : Nat
  direction : Direction
  name : Str
  notes : Str
deriving DecidableEq, Repr

/-- The mutable locals of `parseGenBank`'s line loop. -/
structure GBState where
  name : Str
  description : Str
  sequence : Str
  organism : Str
  accession : Str
  circular : Bool
  features : List SequenceFeature
  inSequence : Bool
  inFeatures : Bool
  currentFeature : Option GBPartialFeature
deriving DecidableEq, Repr

/-- Flush `currentFeature` into the feature list, exactly when its
`start`, `end` and `type` are all truthy (nonzero / nonempty); colour
looked up in `featureTypes`, possibly `undefined`. -/
def gbFlushFeature (st : GBState) : List SequenceFeature :=
  match st.currentFeature with
  | some cf =>
    if cf.start ≠ 0 ∧ cf.endPos ≠ 0 ∧ cf.type ≠ [] then
      st.features ++
        [⟨if cf.name = [] then cf.type else cf.name,
          cf.type, cf.start, cf.endPos, cf.direction,
          (featureTypes.find? (fun ft => ft.type = cf.type)).map (·.color),
          some cf.notes⟩]
    else st.features
  | none => st.features

/-- The `DEFINITION` continuation scan: append `' ' + lines[j].trim()` for
each following raw line that starts with a space. -/
def gbContinuation : Str → List Str → Str
  | d, [] => d
  | d, l :: ls =>
    if l.head? = some ' ' then gbContinuation (d ++ ' ' :: jsTrim l) ls else d

/-- The `SOURCE` continuation scan: walk following space-led raw lines; on
the first containing `ORGANISM`, the organism is the trimmed rest of that
line after the keyword. -/
def gbOrganism : Str → List Str → Str
  | org, [] => org
  | org, l :: ls =>
    if l.head? = some ' ' then
      match idxSub l (str "ORGANISM") with
      | some idx => jsTrim (l.drop (idx + 8))
      | none => gbOrganism org ls
    else org

/-- The feature-section branch of the loop body (reached when
`inFeatures` holds and the line does not start with `ORIGIN`). -/
def gbFeatureStep (line : Str) (st : GBState) : GBState :=
  if matchWsWord line then
    let flushed := gbFlushFeature st
    let featureLine := jsTrim line
    let parts := splitWs featureLine
    let type := parts.headD []
    let locationStr := joinSep ' ' (parts.drop 1)
    let (start, endP, direction) :=
      if containsSub locationStr (str "complement") then
        match matchComplementLoc locationStr with
        | some (a, b) => (a, b, Direction.reverse)
        | none => (1, 1, Direction.reverse)
      else
        match matchRangeLoc locationStr with
        | some (a, b) => (a, b, Direction.forward)
        | none => (1, 1, Direction.forward)
    { st with features := flushed,
              currentFeature := some ⟨type, start, endP, direction, [], []⟩ }
  else if matchWsSlash line ∧ st.currentFeature.isSome then
    match qualifierMatch line with
    | some (qualifier, value) =>
      let cleanValue := if value.head? = some '"' then (value.drop 1).dropLast else value
      if qualifier = str "label" ∨ qualifier = str "gene" then
        { st with currentFeature := st.currentFeature.map (fun cf => { cf with name := cleanValue }) }
      else if qualifier = str "note" then
        { st with currentFeature := st.currentFeature.map (fun cf => { cf with notes := cleanValue }) }
      else st
    | none => st
  else st

/-- One pass of `parseGenBank`'s `for` loop over the remaining raw lines
(the current line is trimmed first; `DEFINITION`/`SOURCE` look ahead into
the untrimmed remainder without consuming it; `FEATURES` and `ORIGIN`
lines `continue`; `//` flushes the trailing feature and breaks). -/
def parseGenBankLoop : List Str → GBState → GBState
  | [], st => st
  | rawLine :: rest, st =>
    let line := jsTrim rawLine
    let st :=
      if (str "LOCUS").isPrefixOf line then
        let parts := splitWs line
        let st1 := if 1 < parts.length then { st with name := parts.getD 1 [] } else st
        if containsSub line (str "circular") then { st1 with circular := true } else st1
      else st
    let st :=
      if (str "ACCESSION").isPrefixOf line then
        let parts := splitWs line
        if 1 < parts.length then { st with accession := parts.getD 1 [] } else st
      else st
    let st :=
      if (str "DEFINITION").isPrefixOf line then
        { st with description := gbContinuation (jsTrim (line.drop 10)) rest }
      else st
    let st :=
      if (str "SOURCE").isPrefixOf line then
        { st with organism := gbOrganism (jsTrim (line.drop 6)) rest }
      else st
    if line = str "FEATURES" then
      parseGenBankLoop rest { st with inFeatures := true }
    else
      let st :=
        if st.inFeatures ∧ ¬ (str "ORIGIN").isPrefixOf line then gbFeatureStep line st
        else st
      if (str "ORIGIN").isPrefixOf line then
        parseGenBankLoop rest { st with inFeatures := false, inSequence := true }
      else
        let st :=
          if st.inSequence ∧ ¬ (str "//").isPrefixOf line then
            { st with sequence := st.sequence ++ line.filter (fun c => !(isDigit c || isJsWs c)) }
          else st
        if (str "//").isPrefixOf line then
          { st with features := gbFlushFeature st }
        else parseGenBankLoop rest st

/-- `parseGenBank`: trim and split the record into lines, run the line
loop from the empty state, then assemble the `DNASequence` (name defaults,
restriction sites recomputed against the default panel, empty metadata
becoming `undefined`). -/
def parseGenBank (genbankContent : Str) : DNASequence :=
  let lines := jsSplitChar '\n' (jsTrim genbankContent)
  let st := parseGenBankLoop lines
    ⟨[], [], [], [], [], false, [], false, false, none⟩
  { name := if st.name = [] then str "Unnamed Sequence" else st.name
    sequence := st.sequence
    features := st.features
    restrictionSites := findRestrictionSites st.sequence commonRestrictionEnzymes
    circular := st.circular
    length := st.sequence.length
    description := if st.description = [] then none else some st.description
    organism := if st.organism = [] then none else some st.organism
    category := none
    accession := if st.accession = [] then none else some st.accession }

/-! ## SnapGene binary parser (`snapgene-parser.ts`)

Byte buffers are `List Nat` (each entry one byte). The thrown `Error`s
become an `Except` error type. The XML packet handlers (`0x05` primers,
`0x06` notes, `0x0A` features) depend on the external `xmldom` library,
catch their own exceptions, and touch only metadata/feature fields that no
claim observes; the embedded record therefore tracks just the fields the
parser's control flow and the claims read (`sequence`, `circular`), and
those handlers act as the identity on it. -/

/-- The distinct `Error`s thrown by `parseSnapGeneFile`, plus the
out-of-range error Node's `Buffer.readUInt*` throws on short reads. -/
inductive SGError where
  /-- `Buffer.readUInt8` / `readUInt32BE` past the end of the buffer. -/
  | outOfRange
  /-- "The file does not start with a SnapGene cookie packet". -/
  | notCookie
  /-- "The file is not a valid SnapGene file". -/
  | invalidSnapGeneFile
  /-- "The file contains more than one DNA packet". -/
  | duplicateDNA
  /-- "No DNA packet in file". -/
  | noDNAPacket
deriving DecidableEq, Repr

/-- The record fields of `parseSnapGeneFile` that its control flow and the
verified properties read. -/
structure SGRecord where
  sequence : Str
  circular : Bool
deriving DecidableEq, Repr

/-- The parser's successful result: the record plus the derived `length`.
(Metadata and feature fields, filled from XML packets, are elided.) -/
structure SGResult where
  sequence : Str
  circular : Bool
  length : Nat
deriving DecidableEq, Repr

/-- `Buffer.readUInt8`: the byte at `off`, throwing out of range past the
end. -/
def readUInt8 (b : List Nat) (off : Nat) : Except SGError Nat :=
  match b[off]? with
  | some v => .ok v
  | none => .error .outOfRange

/-- `Buffer.readUInt32BE`: big-endian 32-bit read, throwing out of range
when fewer than four bytes remain. -/
def readUInt32BE (b : List Nat) (off : Nat) : Except SGError Nat :=
  match b[off]?, b[off + 1]?, b[off + 2]?, b[off + 3]? with
  | some b0, some b1, some b2, some b3 =>
    .ok (b0 * 16777216 + b1 * 65536 + b2 * 256 + b3)
  | _, _, _, _ => .error .outOfRange

/-- `buffer.toString('ascii', s, e)`: the bytes from `s` (inclusive) to
`e` (exclusive), clamped to the buffer, each masked to 7 bits. -/
def asciiSlice (b : List Nat) (s e : Nat) : Str :=
  ((b.drop s).take (e - s)).map (fun v => Char.ofNat (v % 128))

/-- `buffer.subarray(s, s + len)` (clamped). -/
def subarray (b : List Nat) (s len : Nat) : List Nat := (b.drop s).take len

/-- `parseDNAPacket`: rejects a second DNA packet (the `record.sequence`
truthiness check), reads the flag byte (throwing out of range on an empty
payload), and stores the ASCII remainder and the circular bit. -/
def parseDNAPacket (data : List Nat) (record : SGRecord) : Except SGError SGRecord :=
  if record.sequence ≠ [] then .error .duplicateDNA
  else do
    let flags ← readUInt8 data 0
    .ok { sequence := asciiSlice data 1 data.length, circular := flags % 2 = 1 }

/-- The packet `while` loop of `parseSnapGeneFile`. `fuel` is an upper
bound on the number of iterations (each one advances `offset` by at least
five, so `b.length + 1` always suffices; the zero-fuel branch is
unreachable). Unrecognised packet types are skipped by length; the three
XML packet types leave the tracked fields unchanged (see the section
comment). -/
def packetLoop (b : List Nat) : Nat → Nat → SGRecord → Except SGError SGRecord
  | 0, _, _ => .error .outOfRange
  | fuel + 1, offset, record =>
    if offset < b.length then do
      let packetType ← readUInt8 b offset
      let packetLength ← readUInt32BE b (offset + 1)
      let packetData := subarray b (offset + 5) packetLength
      let record ←
        match packetType with
        | 0 => parseDNAPacket packetData record
        | _ => .ok record
      packetLoop b fuel (offset + 5 + packetLength) record
    else .ok record

/-- `parseSnapGeneFile`: reads the first packet header, requires type
`0x09`, compares the eight bytes after the header against `"SnapGene"`
(the declared length is used only to skip to the next packet), runs the
packet loop, and fails when the accumulated sequence is empty. -/
def parseSnapGeneFile (b : List Nat) : Except SGError SGResult := do
  let firstPacketType ← readUInt8 b 0
  let firstPacketLength ← readUInt32BE b 1
  if firstPacketType ≠ 9 then .error .notCookie
  else
    let cookie := asciiSlice b 5 13
    if cookie ≠ str "SnapGene" then .error .invalidSnapGeneFile
    else do
      let record ← packetLoop b (b.length + 1) (5 + firstPacketLength)
        { sequence := [], circular := false }
      if record.sequence = [] then .error .noDNAPacket
      else .ok { sequence := record.sequence
                 circular := record.circular
                 length := record.sequence.length }

/-- Equality of `Except` results is decidable componentwise. -/
instance {e a : Type} [DecidableEq e] [DecidableEq a] : DecidableEq (Except e a) := by
  intro x y
  cases x <;> cases y <;> first
    | (apply isFalse; intro h; exact Except.noConfusion h)
    | (rename_i u v
       exact if h : u = v then isTrue (by rw [h]) else isFalse (by intro hh; cases hh; exact h rfl))

/-- Big-endian 4-byte encoding, for building concrete test buffers. -/
def be32 (n : Nat) : List Nat := [n / 16777216 % 256, n / 65536 % 256, n / 256 % 256, n % 256]

/-- ASCII bytes of a string, for building concrete test buffers. -/
def asciiBytes (s : String) : List Nat := (str s).map Char.toNat

/-! ## Concrete inputs used by the properties -/

/-- A linear 12-nt sequence with a single EcoRI site (recognition start 4,
cut position 4), its restriction sites computed by the scanner. -/
def exLinear : DNASequence :=
  { name := str "ex"
    sequence := str "AAAGAATTCAAA"
    length := 12
    circular := false
    features := []
    restrictionSites := findRestrictionSites (str "AAAGAATTCAAA") commonRestrictionEnzymes
    organism := none
    description := none
    category := none
    accession := none }

/-- A circular 8-nt sequence with a single EcoRI site (recognition start 1,
cut position 1). -/
def exCircular : DNASequence :=
  { name := str "exc"
    sequence := str "GAATTCAA"
    length := 8
    circular := true
    features := []
    restrictionSites := findRestrictionSites (str "GAATTCAA") commonRestrictionEnzymes
    organism := none
    description := none
    category := none
    accession := none }

/-- A linear 6-nt sequence carrying one site whose cut position falls
exactly at the end of the molecule (`start 1 + cutSite 6 - 1 = 6`). -/
def exCutAtEnd : DNASequence :=
  { name := str "exEnd"
    sequence := str "GAATTC"
    length := 6
    circular := false
    features := []
    restrictionSites := [⟨str "EnzX", some (str "GAATTC"), some 6, 1, some 6⟩]
    organism := none
    description := none
    category := none
    accession := none }

/-- A minimal GenBank record whose `FEATURES` block holds one feature line
with location `complement(10..20)`. -/
def gbMinimal : Str :=
  str "LOCUS       TEST 30 bp DNA linear\nFEATURES\n     gene            complement(10..20)\nORIGIN\n        1 aaaagaattc\n//"

/-- A well-formed SnapGene magic packet: type `0x09`, length 8, payload
`"SnapGene"`. -/
def magicPacket : List Nat := [9] ++ be32 8 ++ asciiBytes "SnapGene"

/-- A magic packet declaring length 9: payload `"SnapGene"` followed by one
junk byte. -/
def magicPacketLen9 : List Nat := [9] ++ be32 9 ++ asciiBytes "SnapGene" ++ [0]

/-- A DNA packet (type `0x00`) with flag byte 1 (circular) and the single
base `A`. -/
def dnaPacketA : List Nat := [0] ++ be32 2 ++ [1, 65]

/-- A record whose name contains a space, for the round-trip
counterexample. -/
def exNameSpace : DNASequence :=
  { name := str "A B"
    sequence := str "GAATTC"
    length := 6
    circular := false
    features := []
    restrictionSites := []
    organism := none
    description := none
    category := none
    accession := none }

/-- A record with a name and a description, for the round-trip witness. -/
def exDesc : DNASequence :=
  { name := str "seq1"
    sequence := str "GAATTC"
    length := 6
    circular := false
    features := []
    restrictionSites := []
    organism := none
    description := some (str "test plasmid")
    category := none
    accession := none }

/-! ## Helper lemmas -/

/-- The complement table is an involution on the DNA alphabet `{A,T,G,C,N}`. -/
theorem complementChar_involutive_on_dna :
    ∀ c ∈ str "ATGCN", complementChar (complementChar c) = c := by decide

/-- Filtering with a predicate false on every member yields the empty
list, specialised to the enzyme-name filter of `simulateDigest`. -/
theorem digestSites_eq_nil (dna : DNASequence) (enzymes : List Str)
    (h : ∀ s ∈ dna.restrictionSites, s.name ∉ enzymes) :
    digestSites dna enzymes = [] := by
  have hf : dna.restrictionSites.filter (fun s => enzymes.contains s.name) = [] := by
    apply List.filter_eq_nil_iff.mpr
    intro s hs
    simpa using h s hs
  simp only [digestSites, hf]
  rfl

/-! ## Claims -/

/-- **C1** (code bug). The claim says a circular sequence digested at a
single unique cut site yields exactly 1 fragment. On the code, the digest
of the circular 8-nt `"GAATTCAA"` at its single EcoRI cut (position 1)
yields 2 fragments — the loop emits `[1..1] = "G"` and the wrap fragment
`"AATTCAAG"` re-covers position 1 — so the fragment count is cuts + 1 and
bases are duplicated, contradicting the claim and the reconstruction
invariant the spec states alongside it. -/
theorem simulateDigest_circular_singleCut_two_fragments :
    (digestSites exCircular [str "EcoRI"]).length = 1 ∧
    simulateDigest exCircular [str "EcoRI"] =
      [⟨str "G", 1, 1, []⟩, ⟨str "AATTCAAG", 2, 9, []⟩] := by decide

/-- **C2** (code bug). The claim says the digest fragments, ligated back in
original order with the circularity flag unchanged, reproduce the original
sequence. On the code, for the circular 8-nt `"GAATTCAA"` digested at its
single EcoRI cut, the ligation of the full fragment list yields the 9-nt
`"GAATTCAAG"` — the first base is covered twice — which differs from the
original sequence. -/
theorem simulateLigation_digest_circular_not_reconstruct :
    (simulateLigation
        ((simulateDigest exCircular [str "EcoRI"]).map (fun f => ⟨f.sequence, f.features⟩))
        exCircular.circular).sequence = str "GAATTCAAG" ∧
    str "GAATTCAAG" ≠ exCircular.sequence := by decide

/-- **C3** (code bug). The claim says `parseGenBank` on a minimal record
containing `complement(10..20)` yields a feature with direction reverse,
start 10, end 20. On the code, every line is `trim()`ed before being
tested against `/^\s+\w+/`, so the feature-start branch can never match
and the parser returns an empty feature list (while still parsing the
`LOCUS` name, showing the record itself is processed). -/
theorem parseGenBank_complement_feature_dropped :
    (parseGenBank gbMinimal).features = [] ∧
    (parseGenBank gbMinimal).name = str "TEST" := by decide

/-- **C4** counterexample. The claim says a digest call with an empty
enzyme selection fails with a typed `ValidationError`. On the code,
`simulateDigest` with an empty selection returns a normal result: the
single fragment spanning the whole molecule. (No `ValidationError` exists
anywhere in the digest path; the embedding is accordingly total.) -/
theorem simulateDigest_empty_selection_returns_result :
    simulateDigest exLinear [] = [⟨str "AAAGAATTCAAA", 1, 12, []⟩] := by decide

/-- **C4** (corrected). A digest call whose enzyme selection matches none
of the sequence's restriction sites — in particular an empty selection, or
a selection naming only unknown enzymes — does not fail: it returns
exactly one fragment spanning the whole molecule. -/
theorem simulateDigest_no_matching_enzymes_whole_fragment
    (dna : DNASequence) (enzymes : List Str)
    (h : ∀ s ∈ dna.restrictionSites, s.name ∉ enzymes) :
    simulateDigest dna enzymes = [⟨dna.sequence, 1, dna.length, dna.features⟩] := by
  rw [simulateDigest, digestSites_eq_nil dna enzymes h]

/-- Witness for `simulateDigest_no_matching_enzymes_whole_fragment`:
the unknown enzyme name `"FakeI"` on the concrete linear example. -/
theorem simulateDigest_no_matching_enzymes_whole_fragment_witness :
    simulateDigest exLinear [str "FakeI"] =
      [⟨exLinear.sequence, 1, exLinear.length, exLinear.features⟩] :=
  simulateDigest_no_matching_enzymes_whole_fragment exLinear [str "FakeI"] (by decide)

/-- Counting lemma for the fragment-emission loop: when every site has a
truthy cut site, the cut positions are strictly increasing and the first
lies beyond the cursor, the loop emits exactly one fragment per site and
leaves the cursor at the last cut position. -/
theorem digestLoop_length (dna : DNASequence) :
    ∀ (sites : List RestrictionSite) (prevEnd : Nat),
    (∀ s ∈ sites, (effectiveCut s).isSome) →
    List.Chain' (fun a b => cutPos a < cutPos b) sites →
    (∀ s0 ∈ sites.head?, prevEnd < cutPos s0) →
    (digestLoop dna sites prevEnd).1.length = sites.length ∧
    (digestLoop dna sites prevEnd).2 = ((sites.getLast?).map cutPos).getD prevEnd := by
  intro sites
  induction sites with
  | nil => intro prevEnd _ _ _; simp [digestLoop]
  | cons s rest ih =>
    intro prevEnd hEff hChain hHead
    obtain ⟨c, hc⟩ := Option.isSome_iff_exists.mp (hEff s (List.mem_cons_self s rest))
    have hcs : s.cutSite = some c := by
      unfold effectiveCut at hc
      cases hcs' : s.cutSite with
      | none => rw [hcs'] at hc; simp at hc
      | some c' =>
        rw [hcs'] at hc
        by_cases h0 : c' = 0
        · simp [h0] at hc
        · simp [h0] at hc; rw [hc]
    have hcp : cutPos s = s.start + c - 1 := by simp [cutPos, hcs]
    have hlt : prevEnd < s.start + c - 1 := by
      rw [← hcp]; exact hHead s (by simp)
    have hch := List.chain'_cons'.mp hChain
    have hHead' : ∀ t ∈ rest.head?, s.start + c - 1 < cutPos t := by
      intro t ht; rw [← hcp]; exact hch.1 t ht
    have ihr := ih (s.start + c - 1) (fun t ht => hEff t (List.mem_cons_of_mem s ht))
      hch.2 hHead'
    rcases hq : digestLoop dna rest (s.start + c - 1) with ⟨frags, fin⟩
    rw [hq] at ihr
    simp only [digestLoop, hc]
    rw [if_pos hlt, hq]
    simp only at ihr
    refine ⟨by simp [ihr.1], ?_⟩
    cases rest with
    | nil => simp at ihr ⊢; rw [ihr.2, hcp]
    | cons r rs =>
      rw [List.getLast?_cons_cons]
      have hsome : (r :: rs).getLast? = some ((r :: rs).getLast (by simp)) :=
        List.getLast?_eq_getLast _ _
      simp [ihr.2, hsome]


/-- **C7** counterexample. The claim's general clause says the fragment
count of a linear digest is cuts + 1 whenever at least one cut occurred.
On the code, a linear digest whose single cut position falls exactly at
the end of the molecule (`"GAATTC"`, site start 1, cutSite 6, cut
position 6) emits one fragment, not two: the trailing fragment would be
empty and is skipped. -/
theorem simulateDigest_cut_at_end_one_fragment :
    (digestSites exCutAtEnd [str "EnzX"]).length = 1 ∧
    simulateDigest exCutAtEnd [str "EnzX"] = [⟨str "GAATTC", 1, 6, []⟩] := by decide

/-- **C7** (corrected). The concrete test holds: the linear 12-nt
`"AAAGAATTCAAA"` digested with EcoRI (cut position 4) yields exactly
`[1..4] = "AAAG"` and `[5..12] = "AATTCAAA"`. In general, for a linear
digest whose matching sites all have truthy cut sites and strictly
ascending positive cut positions, the trailing fragment `(lastCut+1)..length`
is emitted iff it is non-empty (`lastCut < length`), and the fragment
count is cuts + 1 exactly in that case — with a cut at the very end it is
cuts, not cuts + 1. -/
theorem simulateDigest_linear_fragments :
    simulateDigest exLinear [str "EcoRI"] =
      [⟨str "AAAG", 1, 4, []⟩, ⟨str "AATTCAAA", 5, 12, []⟩] ∧
    ∀ (dna : DNASequence) (enzymes : List Str) (s0 : RestrictionSite)
      (rest : List RestrictionSite),
      dna.circular = false →
      digestSites dna enzymes = s0 :: rest →
      (∀ s ∈ s0 :: rest, (effectiveCut s).isSome) →
      List.Chain' (fun a b => cutPos a < cutPos b) (s0 :: rest) →
      0 < cutPos s0 →
      (simulateDigest dna enzymes).length =
        (s0 :: rest).length +
          (if cutPos ((s0 :: rest).getLast (List.cons_ne_nil s0 rest)) < dna.length
           then 1 else 0) := by
  constructor
  · decide
  · intro dna enzymes s0 rest hcirc hsites hEff hChain hPos
    have hdl := digestLoop_length dna (s0 :: rest) 0 hEff hChain
      (by intro t ht; simp at ht; subst ht; exact hPos)
    rcases hq : digestLoop dna (s0 :: rest) 0 with ⟨frags, fin⟩
    rw [hq] at hdl
    simp only at hdl
    have hfin : fin = cutPos ((s0 :: rest).getLast (List.cons_ne_nil s0 rest)) := by
      rw [hdl.2, List.getLast?_eq_getLast _ (List.cons_ne_nil s0 rest)]
      simp
    simp only [simulateDigest, hsites, hq, hcirc, if_false]
    subst hfin
    by_cases hlt :
        cutPos ((s0 :: rest).getLast (List.cons_ne_nil s0 rest)) < dna.length
    · simp [hlt, hdl.1]
    · simp [hlt, hdl.1]

/-- Witness for `simulateDigest_linear_fragments`: the general count
formula applied to the concrete linear EcoRI example (one cut at 4,
trailing fragment non-empty, hence two fragments). -/
theorem simulateDigest_linear_fragments_witness :
    (simulateDigest exLinear [str "EcoRI"]).length = 2 := by
  have h := simulateDigest_linear_fragments.2 exLinear [str "EcoRI"]
    ⟨str "EcoRI", some (str "GAATTC"), some 1, 4, some 9⟩ []
    (by decide) (by decide) (by decide) (List.chain'_singleton _) (by decide)
  simpa [cutPos] using h


/-- The chunks of `chunksGo` concatenate back to the pending chunk plus the input. -/
theorem chunksGo_flatten : ∀ (l acc : Str) (k : Nat),
    (chunksGo l acc k).flatten = acc.reverse ++ l := by
  intro l
  induction l with
  | nil =>
    intro acc k
    by_cases h : acc = [] <;> simp [chunksGo, h]
  | cons c cs ih =>
    intro acc k
    cases k with
    | zero => simp [chunksGo, ih]
    | succ k => simp [chunksGo, ih]

/-- The 70-column chunks concatenate back to the original string. -/
theorem chunks70_flatten (l : Str) : (chunks70 l).flatten = l := by
  simp [chunks70, chunksGo_flatten]

/-- `chunksGo` never emits an empty chunk while the counter invariant holds. -/
theorem chunksGo_ne_nil : ∀ (l acc : Str) (k : Nat), (acc = [] → 0 < k) →
    ∀ ch ∈ chunksGo l acc k, ch ≠ [] := by
  intro l
  induction l with
  | nil =>
    intro acc k hk ch hch
    by_cases h : acc = []
    · simp [chunksGo, h] at hch
    · simp [chunksGo, h] at hch
      simp [hch, h]
  | cons c cs ih =>
    intro acc k hk ch hch
    cases k with
    | zero =>
      simp only [chunksGo, List.mem_cons] at hch
      rcases hch with h | h
      · have : acc ≠ [] := fun he => absurd (hk he) (by simp)
        simp [h, this]
      · exact ih [c] 69 (by simp) ch h
    | succ k =>
      simp only [chunksGo] at hch
      exact ih (c :: acc) k (by simp) ch hch

/-- No 70-column chunk is empty. -/
theorem chunks70_ne_nil (l : Str) : ∀ ch ∈ chunks70 l, ch ≠ [] :=
  chunksGo_ne_nil l [] 70 (fun _ => by omega)

/-- Every character of a chunk comes from the chunked string. -/
theorem mem_chunks70 (l : Str) {ch : Str} {c : Char}
    (hch : ch ∈ chunks70 l) (hc : c ∈ ch) : c ∈ l := by
  rw [← chunks70_flatten l]
  exact List.mem_flatten.mpr ⟨ch, hch, hc⟩

/-- A join starting with a nonempty piece is nonempty. -/
theorem joinSep_cons_ne_nil (sep : Char) (t : Str) (ts : List Str) (ht : t ≠ []) :
    joinSep sep (t :: ts) ≠ [] := by
  cases ts with
  | nil => simpa [joinSep]
  | cons t2 ts => simp [joinSep]

/-- The last character of a join of nonempty pieces is the last character of the last piece. -/
theorem getLast?_joinSep (sep : Char) : ∀ (ts : List Str) (t : Str),
    (∀ u ∈ t :: ts, u ≠ []) →
    (joinSep sep (t :: ts)).getLast? =
      ((t :: ts).getLast (List.cons_ne_nil t ts)).getLast? := by
  intro ts
  induction ts with
  | nil => intro t _; simp [joinSep]
  | cons t2 ts ih =>
    intro t hne
    have h2 : joinSep sep (t2 :: ts) ≠ [] :=
      joinSep_cons_ne_nil sep t2 ts (hne t2 (by simp))
    obtain ⟨x, xs, hxs⟩ : ∃ x xs, joinSep sep (t2 :: ts) = x :: xs := by
      cases hj : joinSep sep (t2 :: ts) with
      | nil => exact absurd hj h2
      | cons x xs => exact ⟨x, xs, rfl⟩
    calc (joinSep sep (t :: t2 :: ts)).getLast?
        = (t ++ sep :: joinSep sep (t2 :: ts)).getLast? := by simp [joinSep]
      _ = (sep :: joinSep sep (t2 :: ts)).getLast? :=
          List.getLast?_append_cons t sep _
      _ = (joinSep sep (t2 :: ts)).getLast? := by
          rw [hxs, List.getLast?_cons_cons]
      _ = ((t2 :: ts).getLast (List.cons_ne_nil t2 ts)).getLast? :=
          ih t2 (fun u hu => hne u (List.mem_cons_of_mem t hu))
      _ = ((t :: t2 :: ts).getLast (List.cons_ne_nil t (t2 :: ts))).getLast? := by
          rw [List.getLast_cons_cons]

/-- Trailing whitespace is removed by `jsTrimEnd`. -/
theorem jsTrimEnd_append_ws (l : Str) (c : Char) (hc : isJsWs c = true) :
    jsTrimEnd (l ++ [c]) = jsTrimEnd l := by
  simp [jsTrimEnd, List.dropWhile, hc]

/-- A string not ending in whitespace is unchanged by `jsTrimEnd`. -/
theorem jsTrimEnd_eq_self (l : Str)
    (h : ∀ c, l.getLast? = some c → isJsWs c = false) : jsTrimEnd l = l := by
  cases hrev : l.reverse with
  | nil =>
    have : l = [] := by simpa using congrArg List.reverse hrev
    simp [jsTrimEnd, this]
  | cons c cs =>
    have hl : l = cs.reverse ++ [c] := by
      have := congrArg List.reverse hrev
      simpa using this
    have hlast : l.getLast? = some c := by
      rw [hl, List.getLast?_append_cons]
      rfl
    have hcw : isJsWs c = false := h c hlast
    rw [jsTrimEnd, hrev]
    simp [List.dropWhile, hcw, ← hrev]

/-- A string not starting with whitespace is unchanged by `jsTrimStart`. -/
theorem jsTrimStart_eq_self (l : Str)
    (h : ∀ c, l.head? = some c → isJsWs c = false) : jsTrimStart l = l := by
  cases l with
  | nil => rfl
  | cons c cs =>
    have := h c rfl
    simp [jsTrimStart, List.dropWhile, this]

/-- A whitespace-free string is unchanged by `jsTrim`. -/
theorem jsTrim_eq_self_of_no_ws (l : Str)
    (h : ∀ c ∈ l, isJsWs c = false) : jsTrim l = l := by
  rw [jsTrim, jsTrimEnd_eq_self, jsTrimStart_eq_self]
  · intro c hc
    exact h c (List.mem_of_mem_head? hc)
  · intro c hc
    have hex := List.mem_getLast?_eq_getLast (x := c) (l := l) hc
    obtain ⟨hne, hcl⟩ := hex
    exact h c (hcl ▸ List.getLast_mem hne)

/-- Splitting on a separator that does not occur yields the single piece. -/
theorem jsSplitChar_of_not_mem (sep : Char) : ∀ (l : Str), sep ∉ l →
    jsSplitChar sep l = [l] := by
  intro l
  induction l with
  | nil => intro _; rfl
  | cons c cs ih =>
    intro h
    have hc : ¬ c = sep := fun he => h (he ▸ List.mem_cons_self c cs)
    have hcs : sep ∉ cs := fun hm => h (List.mem_cons_of_mem c hm)
    simp only [jsSplitChar, if_neg hc, ih hcs]

/-- A split is never the empty list of pieces. -/
theorem jsSplitChar_ne_nil (sep : Char) : ∀ (l : Str), jsSplitChar sep l ≠ [] := by
  intro l
  induction l with
  | nil => simp [jsSplitChar]
  | cons c cs ih =>
    by_cases hc : c = sep
    · simp [jsSplitChar, hc]
    · simp only [jsSplitChar, if_neg hc]
      cases hs : jsSplitChar sep cs with
      | nil => exact absurd hs ih
      | cons t ts => simp

/-- Splitting peels off a separator-free prefix before a separator. -/
theorem jsSplitChar_append_sep (sep : Char) (rest : Str) : ∀ (a : Str), sep ∉ a →
    jsSplitChar sep (a ++ sep :: rest) = a :: jsSplitChar sep rest := by
  intro a
  induction a with
  | nil => intro _; simp [jsSplitChar]
  | cons c cs ih =>
    intro h
    have hc : ¬ c = sep := fun he => h (he ▸ List.mem_cons_self c cs)
    have hcs : sep ∉ cs := fun hm => h (List.mem_cons_of_mem c hm)
    simp only [List.cons_append, jsSplitChar, if_neg hc, List.append_eq, ih hcs]

/-- Splitting a join of separator-free pieces recovers the pieces. -/
theorem jsSplitChar_joinSep (sep : Char) : ∀ (l : List Str), l ≠ [] →
    (∀ t ∈ l, sep ∉ t) → jsSplitChar sep (joinSep sep l) = l := by
  intro l
  induction l with
  | nil => intro h; exact absurd rfl h
  | cons t ts ih =>
    intro _ hsep
    cases ts with
    | nil => simpa [joinSep] using jsSplitChar_of_not_mem sep t (hsep t (by simp))
    | cons t2 ts2 =>
      have : joinSep sep (t :: t2 :: ts2) = t ++ sep :: joinSep sep (t2 :: ts2) := by
        simp [joinSep]
      rw [this, jsSplitChar_append_sep sep _ t (hsep t (by simp)),
        ih (by simp) (fun u hu => hsep u (List.mem_cons_of_mem t hu))]

/-- Joining the pieces of a split recovers the string. -/
theorem joinSep_jsSplitChar (sep : Char) : ∀ (l : Str),
    joinSep sep (jsSplitChar sep l) = l := by
  intro l
  induction l with
  | nil => rfl
  | cons c cs ih =>
    by_cases hc : c = sep
    · subst hc
      simp only [jsSplitChar, if_pos rfl]
      cases hs : jsSplitChar c cs with
      | nil => exact absurd hs (jsSplitChar_ne_nil c cs)
      | cons t ts =>
        rw [hs] at ih
        simp [joinSep, ih]
    · simp only [jsSplitChar, if_neg hc]
      cases hs : jsSplitChar sep cs with
      | nil => exact absurd hs (jsSplitChar_ne_nil sep cs)
      | cons t ts =>
        rw [hs] at ih
        cases ts with
        | nil =>
          simp [joinSep] at ih ⊢
          exact ih
        | cons u us =>
          simp [joinSep] at ih ⊢
          rw [← ih]

/-- Terminating every piece with the separator and flattening equals the join plus a final separator. -/
theorem flatten_map_append_sep (sep : Char) : ∀ (l : List Str), l ≠ [] →
    (l.map (· ++ [sep])).flatten = joinSep sep l ++ [sep] := by
  intro l
  induction l with
  | nil => intro h; exact absurd rfl h
  | cons t ts ih =>
    intro _
    cases ts with
    | nil => simp [joinSep]
    | cons t2 ts2 =>
      rw [List.map_cons, List.flatten_cons, ih (by simp)]
      simp [joinSep]


/-- Trim-then-split of a header line followed by a lone newline: the header alone. -/
theorem trimSplit_nil_chunks (hdr : Str)
    (hhead : ∀ c, hdr.head? = some c → isJsWs c = false)
    (hlast : ∀ c, hdr.getLast? = some c → isJsWs c = false)
    (hnl : '\n' ∉ hdr) :
    jsSplitChar '\n' (jsTrim (hdr ++ ['\n'])) = [hdr] := by
  rw [jsTrim, jsTrimEnd_append_ws hdr '\n' (by decide), jsTrimEnd_eq_self hdr hlast,
    jsTrimStart_eq_self hdr hhead, jsSplitChar_of_not_mem '\n' hdr hnl]

/-- Trim-then-split of a header line followed by newline-terminated chunk lines: the header and the chunks. -/
theorem trimSplit_chunks (hdr : Str) (chunks : List Str) (hne : chunks ≠ [])
    (hdrne : hdr ≠ [])
    (hhead : ∀ c, hdr.head? = some c → isJsWs c = false)
    (hnl : '\n' ∉ hdr)
    (hchne : ∀ ch ∈ chunks, ch ≠ [])
    (hchws : ∀ ch ∈ chunks, ∀ c ∈ ch, isJsWs c = false) :
    jsSplitChar '\n' (jsTrim (hdr ++ '\n' :: (chunks.map (· ++ ['\n'])).flatten)) =
      hdr :: chunks := by
  obtain ⟨t, ts, hts⟩ : ∃ t ts, chunks = t :: ts := by
    cases chunks with
    | nil => exact absurd rfl hne
    | cons t ts => exact ⟨t, ts, rfl⟩
  have hbody : (chunks.map (· ++ ['\n'])).flatten = joinSep '\n' chunks ++ ['\n'] :=
    flatten_map_append_sep '\n' chunks hne
  have hassoc : hdr ++ '\n' :: (joinSep '\n' chunks ++ ['\n']) =
      (hdr ++ '\n' :: joinSep '\n' chunks) ++ ['\n'] := by simp
  have hlastJ : ∀ c, (hdr ++ '\n' :: joinSep '\n' chunks).getLast? = some c →
      isJsWs c = false := by
    intro c hc
    rw [List.getLast?_append_cons, hts] at hc
    have hjne : joinSep '\n' (t :: ts) ≠ [] :=
      joinSep_cons_ne_nil '\n' t ts (hchne t (hts ▸ List.mem_cons_self t ts))
    obtain ⟨x, xs, hxs⟩ : ∃ x xs, joinSep '\n' (t :: ts) = x :: xs := by
      cases hj : joinSep '\n' (t :: ts) with
      | nil => exact absurd hj hjne
      | cons x xs => exact ⟨x, xs, rfl⟩
    rw [hxs, List.getLast?_cons_cons, ← hxs,
      getLast?_joinSep '\n' ts t (hts ▸ hchne)] at hc
    have hmem : c ∈ (t :: ts).getLast (List.cons_ne_nil t ts) := by
      obtain ⟨hne2, heq⟩ := List.mem_getLast?_eq_getLast hc
      exact heq ▸ List.getLast_mem hne2
    exact hchws _ (hts ▸ List.getLast_mem (List.cons_ne_nil t ts)) c hmem
  have hheadJ : ∀ c, (hdr ++ '\n' :: joinSep '\n' chunks).head? = some c →
      isJsWs c = false := by
    intro c hc
    cases hh : hdr with
    | nil => exact absurd hh hdrne
    | cons d ds =>
      rw [hh] at hc
      simp at hc
      subst hc
      exact hhead d (by rw [hh]; rfl)
  rw [hbody, hassoc, jsTrim, jsTrimEnd_append_ws _ '\n' (by decide),
    jsTrimEnd_eq_self _ hlastJ, jsTrimStart_eq_self _ hheadJ,
    jsSplitChar_append_sep '\n' (joinSep '\n' chunks) hdr hnl,
    jsSplitChar_joinSep '\n' chunks hne]
  intro ch hch hmem
  have := hchws ch hch '\n' hmem
  simp [isJsWs] at this


/-- The fields `parseFasta` computes when the trimmed input splits into a `>`-led header with no description and a list of body lines. -/
theorem parseFasta_fields_no_desc (content nm : Str) (chunks : List Str)
    (hsplit : jsSplitChar '\n' (jsTrim content) = ('>' :: nm) :: chunks)
    (hnm : ' ' ∉ nm) (hnm0 : nm ≠ []) :
    (parseFasta content).name = nm ∧
    (parseFasta content).description = none ∧
    (parseFasta content).sequence = ((chunks.map jsTrim)).flatten ∧
    (parseFasta content).restrictionSites =
      findRestrictionSites ((chunks.map jsTrim)).flatten commonRestrictionEnzymes := by
  simp only [parseFasta, hsplit, List.headD_cons, List.head?_cons, List.drop_succ_cons,
    List.drop_zero, List.drop_one, List.tail_cons,
    jsSplitChar_of_not_mem ' ' nm hnm]
  simp [joinSep, hnm0]

/-- The fields `parseFasta` computes when the trimmed input splits into a `>`-led header carrying a description and a list of body lines. -/
theorem parseFasta_fields_desc (content nm d : Str) (chunks : List Str)
    (hsplit : jsSplitChar '\n' (jsTrim content) = ('>' :: (nm ++ ' ' :: d)) :: chunks)
    (hnm : ' ' ∉ nm) (hnm0 : nm ≠ []) (hd0 : d ≠ []) :
    (parseFasta content).name = nm ∧
    (parseFasta content).description = some d ∧
    (parseFasta content).sequence = ((chunks.map jsTrim)).flatten ∧
    (parseFasta content).restrictionSites =
      findRestrictionSites ((chunks.map jsTrim)).flatten commonRestrictionEnzymes := by
  simp only [parseFasta, hsplit, List.headD_cons, List.head?_cons, List.drop_succ_cons,
    List.drop_zero, List.drop_one, List.tail_cons,
    jsSplitChar_append_sep ' ' d nm hnm, joinSep_jsSplitChar]
  simp [hnm0, hd0]


/-- **C6** (corrected, amended statement). For every `DNASequence` whose
name is nonempty and whitespace-free, whose sequence is whitespace-free,
and whose description is either absent or nonempty, newline-free and (when
the sequence is empty, so that the header ends the trimmed export) not
ending in whitespace, `parseFasta (exportToFasta x)` reproduces the name,
the description and the sequence exactly, and recomputes the restriction
sites against the default enzyme panel. -/
theorem parseFasta_exportToFasta_roundTrip (x : DNASequence)
    (hn : x.name ≠ [])
    (hnws : ∀ c ∈ x.name, isJsWs c = false)
    (hs : ∀ c ∈ x.sequence, isJsWs c = false)
    (hd : ∀ d, x.description = some d →
      d ≠ [] ∧ (∀ c ∈ d, c ≠ '\n') ∧
        (x.sequence = [] → ∀ c, d.getLast? = some c → isJsWs c = false)) :
    (parseFasta (exportToFasta x)).name = x.name ∧
    (parseFasta (exportToFasta x)).description = x.description ∧
    (parseFasta (exportToFasta x)).sequence = x.sequence ∧
    (parseFasta (exportToFasta x)).restrictionSites =
      findRestrictionSites x.sequence commonRestrictionEnzymes := by
  have hn_nl : '\n' ∉ x.name := fun hm => by
    have := hnws '\n' hm
    simp [isJsWs] at this
  have hn_sp : ' ' ∉ x.name := fun hm => by
    have := hnws ' ' hm
    simp [isJsWs] at this
  have hchne := chunks70_ne_nil x.sequence
  have hchws : ∀ ch ∈ chunks70 x.sequence, ∀ c ∈ ch, isJsWs c = false :=
    fun ch hch c hc => hs c (mem_chunks70 _ hch hc)
  have hmap : (chunks70 x.sequence).map jsTrim = chunks70 x.sequence := by
    have h1 : (chunks70 x.sequence).map jsTrim = (chunks70 x.sequence).map id :=
      List.map_congr_left (fun ch hch => jsTrim_eq_self_of_no_ws ch (hchws ch hch))
    rw [h1, List.map_id]
  rcases hdesc : x.description with _ | d
  · have hexp : exportToFasta x =
        ('>' :: x.name) ++ '\n' :: ((chunks70 x.sequence).map (· ++ ['\n'])).flatten := by
      simp [exportToFasta, hdesc]
    have hhead : ∀ c, ('>' :: x.name).head? = some c → isJsWs c = false := by
      intro c hc
      simp at hc
      subst hc
      decide
    have hnl : '\n' ∉ ('>' :: x.name) := by
      simp [hn_nl]
    rcases hseq : x.sequence with _ | ⟨c0, cs0⟩
    · have hlast : ∀ c, ('>' :: x.name).getLast? = some c → isJsWs c = false := by
        intro c hc
        have : ('>' :: x.name).getLast? = x.name.getLast? := by
          show (['>'] ++ x.name).getLast? = _
          exact List.getLast?_append_of_ne_nil ['>'] hn
        rw [this] at hc
        obtain ⟨hne2, heq⟩ := List.mem_getLast?_eq_getLast hc
        exact hnws c (heq ▸ List.getLast_mem hne2)
      have hsplit : jsSplitChar '\n' (jsTrim (exportToFasta x)) = [('>' :: x.name)] := by
        rw [hexp, hseq]
        exact trimSplit_nil_chunks _ hhead hlast hnl
      obtain ⟨h1, h2, h3, h4⟩ :=
        parseFasta_fields_no_desc (exportToFasta x) x.name [] (by simpa using hsplit) hn_sp hn
      have hnilmap : (List.map jsTrim ([] : List Str)).flatten = ([] : Str) := rfl
      refine ⟨h1, by rw [h2], ?_, ?_⟩
      · rw [h3, hnilmap]
      · rw [h4, hnilmap]
    · rw [← hseq]
      have hchne2 : chunks70 x.sequence ≠ [] := by
        intro h0
        have hfl := chunks70_flatten x.sequence
        rw [h0] at hfl
        rw [hseq] at hfl
        simp at hfl
      have hsplit : jsSplitChar '\n' (jsTrim (exportToFasta x)) =
          ('>' :: x.name) :: chunks70 x.sequence := by
        rw [hexp]
        exact trimSplit_chunks _ _ hchne2 (by simp) hhead hnl hchne hchws
      obtain ⟨h1, h2, h3, h4⟩ :=
        parseFasta_fields_no_desc (exportToFasta x) x.name (chunks70 x.sequence)
          hsplit hn_sp hn
      refine ⟨h1, by rw [h2], ?_, ?_⟩
      · rw [h3, hmap, chunks70_flatten]
      · rw [h4, hmap, chunks70_flatten]
  · obtain ⟨hdne, hdnl, hdlast⟩ := hd d hdesc
    have hexp : exportToFasta x =
        ('>' :: (x.name ++ ' ' :: d)) ++ '\n' ::
          ((chunks70 x.sequence).map (· ++ ['\n'])).flatten := by
      simp [exportToFasta, hdesc, hdne]
    have hhead : ∀ c, ('>' :: (x.name ++ ' ' :: d)).head? = some c → isJsWs c = false := by
      intro c hc
      simp at hc
      subst hc
      decide
    have hnl : '\n' ∉ ('>' :: (x.name ++ ' ' :: d)) := by
      intro hm
      rcases List.mem_cons.mp hm with h | hm2
      · exact absurd h (by decide)
      · rcases List.mem_append.mp hm2 with h | hm3
        · exact hn_nl h
        · rcases List.mem_cons.mp hm3 with h | h
          · exact absurd h (by decide)
          · exact (hdnl '\n' h) rfl
    rcases hseq : x.sequence with _ | ⟨c0, cs0⟩
    · have hlast : ∀ c, ('>' :: (x.name ++ ' ' :: d)).getLast? = some c →
          isJsWs c = false := by
        intro c hc
        have step1 : ('>' :: (x.name ++ ' ' :: d)).getLast? = (' ' :: d).getLast? := by
          show (('>' :: x.name) ++ ' ' :: d).getLast? = _
          exact List.getLast?_append_cons ('>' :: x.name) ' ' d
        have step2 : (' ' :: d).getLast? = d.getLast? := by
          show ([' '] ++ d).getLast? = _
          exact List.getLast?_append_of_ne_nil [' '] hdne
        rw [step1, step2] at hc
        exact hdlast hseq c hc
      have hsplit : jsSplitChar '\n' (jsTrim (exportToFasta x)) =
          [('>' :: (x.name ++ ' ' :: d))] := by
        rw [hexp, hseq]
        exact trimSplit_nil_chunks _ hhead hlast hnl
      obtain ⟨h1, h2, h3, h4⟩ :=
        parseFasta_fields_desc (exportToFasta x) x.name d [] (by simpa using hsplit)
          hn_sp hn hdne
      have hnilmap : (List.map jsTrim ([] : List Str)).flatten = ([] : Str) := rfl
      refine ⟨h1, by rw [h2], ?_, ?_⟩
      · rw [h3, hnilmap]
      · rw [h4, hnilmap]
    · rw [← hseq]
      have hchne2 : chunks70 x.sequence ≠ [] := by
        intro h0
        have hfl := chunks70_flatten x.sequence
        rw [h0] at hfl
        rw [hseq] at hfl
        simp at hfl
      have hsplit : jsSplitChar '\n' (jsTrim (exportToFasta x)) =
          ('>' :: (x.name ++ ' ' :: d)) :: chunks70 x.sequence := by
        rw [hexp]
        exact trimSplit_chunks _ _ hchne2 (by simp) hhead hnl hchne hchws
      obtain ⟨h1, h2, h3, h4⟩ :=
        parseFasta_fields_desc (exportToFasta x) x.name d (chunks70 x.sequence)
          hsplit hn_sp hn hdne
      refine ⟨h1, by rw [h2], ?_, ?_⟩
      · rw [h3, hmap, chunks70_flatten]
      · rw [h4, hmap, chunks70_flatten]


/-- **C6** counterexample. The claim quantifies over every `DNASequence`;
for a sequence named `"A B"` (a space in the name) the round trip does
not reproduce the name: the parser takes only the first space-delimited
token as the name and shifts the rest into the description. -/
theorem parseFasta_exportToFasta_name_with_space :
    (parseFasta (exportToFasta exNameSpace)).name = str "A" ∧
    (parseFasta (exportToFasta exNameSpace)).name ≠ exNameSpace.name ∧
    (parseFasta (exportToFasta exNameSpace)).description = some (str "B") := by decide

/-- Witness for `parseFasta_exportToFasta_roundTrip` at a concrete record
with a name, a description containing a space, and a 6-nt sequence. -/
theorem parseFasta_exportToFasta_roundTrip_witness :
    (parseFasta (exportToFasta exDesc)).name = exDesc.name ∧
    (parseFasta (exportToFasta exDesc)).description = exDesc.description ∧
    (parseFasta (exportToFasta exDesc)).sequence = exDesc.sequence ∧
    (parseFasta (exportToFasta exDesc)).restrictionSites =
      findRestrictionSites exDesc.sequence commonRestrictionEnzymes :=
  parseFasta_exportToFasta_roundTrip exDesc (by decide) (by decide) (by decide)
    (fun d h => by
      have h2 : some (str "test plasmid") = some d := h
      injection h2 with h3
      subst h3
      exact ⟨by decide, by decide, fun h0 => absurd h0 (by decide)⟩)

/-- **C8** (confirmed). For every string over `{A,T,G,C,N}`, the reverse
complement is an involution. -/
theorem getReverseComplementSequence_involution (s : Str)
    (h : ∀ c ∈ s, c ∈ str "ATGCN") :
    getReverseComplementSequence (getReverseComplementSequence s) = s := by
  unfold getReverseComplementSequence getReverseSequence getComplementarySequence
  rw [← List.map_reverse, List.reverse_reverse, List.map_map]
  conv_rhs => rw [← List.map_id s]
  exact List.map_congr_left (fun c hc => complementChar_involutive_on_dna c (h c hc))

/-- Witness for `getReverseComplementSequence_involution` at the concrete
string `"ATGCNNA"`. -/
theorem getReverseComplementSequence_involution_witness :
    getReverseComplementSequence (getReverseComplementSequence (str "ATGCNNA")) =
      str "ATGCNNA" :=
  getReverseComplementSequence_involution (str "ATGCNNA") (by decide)


/-- **C5** counterexample. The claim says parsing fails with `InvalidMagic`
for every buffer whose first packet has a declared length other than 8.
On the code, a first packet of type `0x09` declaring length 9 with payload
`"SnapGene"` plus one junk byte is accepted: with a well-formed DNA packet
following, parsing succeeds. -/
theorem parseSnapGeneFile_len9_magic_accepted :
    parseSnapGeneFile (magicPacketLen9 ++ dnaPacketA) =
      .ok ⟨str "A", true, 1⟩ := by decide

/-- **C5** (corrected). `parseSnapGeneFile` checks only the first packet's
type byte and the eight payload bytes after the 5-byte header: a type
other than `0x09` fails with the cookie-packet error, and (with type
`0x09`) a payload differing from `"SnapGene"` fails with the invalid-file
error. The declared length is never validated; it is used only as the
distance to skip to the next packet (see the counterexample, where a
declared length of 9 is accepted). The five header bytes must be present
at all, else the Node buffer reads throw a range error instead. -/
theorem parseSnapGeneFile_magic_check :
    (∀ (b : List Nat) (t : Nat), 5 ≤ b.length → b[0]? = some t → t ≠ 9 →
        parseSnapGeneFile b = .error .notCookie) ∧
    (∀ (b : List Nat), 5 ≤ b.length → b[0]? = some 9 →
        asciiSlice b 5 13 ≠ str "SnapGene" →
        parseSnapGeneFile b = .error .invalidSnapGeneFile) := by
  constructor
  · intro b t hlen ht hne
    have h0 : readUInt8 b 0 = .ok t := by simp [readUInt8, ht]
    obtain ⟨v1, h1⟩ : ∃ v, b[1]? = some v := ⟨_, List.getElem?_eq_getElem (by omega)⟩
    obtain ⟨v2, h2⟩ : ∃ v, b[2]? = some v := ⟨_, List.getElem?_eq_getElem (by omega)⟩
    obtain ⟨v3, h3⟩ : ∃ v, b[3]? = some v := ⟨_, List.getElem?_eq_getElem (by omega)⟩
    obtain ⟨v4, h4⟩ : ∃ v, b[4]? = some v := ⟨_, List.getElem?_eq_getElem (by omega)⟩
    have h32 : readUInt32BE b 1 = .ok
        (v1 * 16777216 + v2 * 65536 + v3 * 256 + v4) := by
      simp [readUInt32BE, h1, h2, h3, h4]
    simp [parseSnapGeneFile, h0, h32, hne, Bind.bind, Except.bind]
  · intro b hlen h9 hcookie
    have h0 : readUInt8 b 0 = .ok 9 := by simp [readUInt8, h9]
    obtain ⟨v1, h1⟩ : ∃ v, b[1]? = some v := ⟨_, List.getElem?_eq_getElem (by omega)⟩
    obtain ⟨v2, h2⟩ : ∃ v, b[2]? = some v := ⟨_, List.getElem?_eq_getElem (by omega)⟩
    obtain ⟨v3, h3⟩ : ∃ v, b[3]? = some v := ⟨_, List.getElem?_eq_getElem (by omega)⟩
    obtain ⟨v4, h4⟩ : ∃ v, b[4]? = some v := ⟨_, List.getElem?_eq_getElem (by omega)⟩
    have h32 : readUInt32BE b 1 = .ok
        (v1 * 16777216 + v2 * 65536 + v3 * 256 + v4) := by
      simp [readUInt32BE, h1, h2, h3, h4]
    simp [parseSnapGeneFile, h0, h32, hcookie, Bind.bind, Except.bind]

/-- Witness for `parseSnapGeneFile_magic_check`: a five-byte buffer whose
type byte is `0x08` fails with the cookie-packet error. -/
theorem parseSnapGeneFile_magic_check_witness :
    parseSnapGeneFile [8, 0, 0, 0, 8] = .error .notCookie :=
  parseSnapGeneFile_magic_check.1 [8, 0, 0, 0, 8] 8 (by decide) (by decide) (by decide)

set_option maxRecDepth 8000 in
set_option maxHeartbeats 1000000 in
/-- **C9** (confirmed). A buffer whose only DNA packet (type `0x00`)
carries just the flag byte (any byte value) and no sequence bytes fails
with the missing-sequence error ("No DNA packet in file"): the presence
check tests the decoded sequence string for emptiness, not whether a
`0x00` packet occurred. -/
theorem parseSnapGeneFile_empty_sequence_packet_missing (flag : Nat)
    (hbyte : flag < 256) :
    parseSnapGeneFile (magicPacket ++ ([0] ++ be32 1 ++ [flag])) =
      .error .noDNAPacket := by
  revert flag
  decide

/-- Witness for `parseSnapGeneFile_empty_sequence_packet_missing` at flag
byte 1 (circular). -/
theorem parseSnapGeneFile_empty_sequence_packet_missing_witness :
    parseSnapGeneFile (magicPacket ++ ([0] ++ be32 1 ++ [1])) =
      .error .noDNAPacket :=
  parseSnapGeneFile_empty_sequence_packet_missing 1 (by decide)

/-- **C10** (confirmed). `calculateGCContent` of the empty string is `NaN`
(the unguarded `0/0`), not `0` and not an error. -/
theorem calculateGCContent_empty_nan :
    calculateGCContent [] = JSNum.nan ∧ JSNum.nan ≠ JSNum.num 0 := by decide

end GeneMap
